import Mathlib

/-!
# Verification of the feedme crawler's extraction-transform engine

Shallow embedding of the feedme crawler (src/unnamed/part_003, second
document: the current `feedme-crawler/main.go`) and of the PostgreSQL
persistence layer (src/unnamed/part_000, `CreateItems`), together with
proofs settling the frozen claims about the natural-language spec.

Modelling conventions:
* A goquery `*Selection` is a list of abstract DOM node identifiers
  (`Sel := List Nat`).  CSS matching, attribute lookup, text extraction
  and regular-expression matching are external collaborators (goquery and
  Go's `regexp`), modelled by an explicit environment `Env`.  goquery's
  `Find` always returns a non-nil (possibly empty) selection, `Attr` on an
  empty selection reports absence, `Text` on an empty selection returns
  the empty string; `Env` can realise all of these behaviours.
* A Go `map[string]interface{}` field-mapping is an association list
  `FieldMap` with at most one entry per key (`set` overwrites in place or
  appends), so `List.length` coincides with Go's `len`.
* Go slices of maps are passed by value but share the underlying maps;
  nested (non-base) `crawlSelect` calls never append, so a callee's
  returned list is exactly the caller's view of its own slice after the
  call.  The embedding therefore returns the updated list together with
  the error; the Go code returns a `nil` slice alongside a non-nil error,
  but no caller ever reads the slice in that case (`_, err =` at nested
  call sites, early `return` in `processFeed`).
* `regexp.MustCompile` panics on an invalid pattern and a panic in a
  worker goroutine kills the whole process; panics are modelled by the
  dedicated result constructor `CrawlRes.panicked`.
* `strconv.Atoi` is modelled faithfully including its range behaviour:
  on a syntax error it yields 0, on a 64-bit overflow it yields the
  clamped value `MaxInt64`/`MinInt64`, and in both cases a non-nil error
  that `crawlStore` discards.
-/

/-- Scalar values stored in a field-mapping: the `int` and `string`
coercions of `crawlStore`. -/
inductive Val where
  | int (n : Int) : Val
  | str (s : String) : Val
deriving DecidableEq, Repr

/-- A field-mapping (`map[string]interface{}` in Go): an association list
with at most one entry per key. -/
abbrev FieldMap : Type := List (String × Val)

/-- Go's `m[k] = v`: overwrite the existing entry for `k` or append a new
one, preserving `len`.  (Go maps are unordered; the association-list order
is a modelling artifact that no observation depends on.) -/
def FieldMap.set : FieldMap → String → Val → FieldMap
  | [], k, v => [(k, v)]
  | p :: rest, k, v => if p.1 = k then (k, v) :: rest else p :: FieldMap.set rest k v

/-- Go's `v, ok := m[k]` (the value part). -/
def FieldMap.get (m : FieldMap) (k : String) : Option Val :=
  Option.map Prod.snd (List.find? (fun p => p.1 = k) m)

/-- Go's `_, ok := m[k]`. -/
def FieldMap.hasKey (m : FieldMap) (k : String) : Bool :=
  List.any m (fun p => p.1 = k)

/-- Go's `len(m)`. -/
def FieldMap.size (m : FieldMap) : Nat := List.length m

/-- Maximal value of Go's 64-bit `int`. -/
def intMax64 : Int := 9223372036854775807

/-- Minimal value of Go's 64-bit `int`. -/
def intMin64 : Int := -9223372036854775808

/-- The two kinds of error `strconv.Atoi` can report: `ErrSyntax` for a
malformed numeral and `ErrRange` for a syntactically valid numeral outside
the 64-bit `int` range. -/
inductive AtoiErr where
  | malformed : AtoiErr
  | outOfRange : AtoiErr
deriving DecidableEq, Repr

/-- Parse a list of decimal digits; `none` if empty or a non-digit occurs. -/
def parseDigits : List Char → Option Nat
  | [] => none
  | cs => List.foldl
      (fun acc c => match acc with
        | none => none
        | some n => if c.isDigit then some (n * 10 + (c.toNat - 48)) else none)
      (some 0) cs

/-- Strip `strconv.Atoi`'s optional single leading sign. -/
def splitSign : List Char → Bool × List Char
  | '-' :: t => (true, t)
  | '+' :: t => (false, t)
  | cs => (false, cs)

/-- Go's `strconv.Atoi` on a 64-bit platform: optional single sign, then
decimal digits.  Syntax error yields `(0, ErrSyntax)`; a numeral outside
`[MinInt64, MaxInt64]` yields the clamped bound and `ErrRange`. -/
def goAtoi (s : String) : Int × Option AtoiErr :=
  match parseDigits (splitSign s.toList).2 with
  | none => (0, some AtoiErr.malformed)
  | some n =>
    let v : Int := if (splitSign s.toList).1 then -(n : Int) else (n : Int)
    if v < intMin64 then (intMin64, some AtoiErr.outOfRange)
    else if intMax64 < v then (intMax64, some AtoiErr.outOfRange)
    else (v, none)

/-- One entry of a regex node's `matches` list: a JSON object that may or
may not carry the `name` and `type` members. -/
structure RawMatch where
  name : Option String
  typ : Option String
deriving DecidableEq, Repr

/-- A raw DSL node (`map[string]*json.RawMessage` in Go), recording which
of the distinguishing members are present and their (string-typed)
payloads.  `hasText`/`hasCopy` record mere presence of the `text`/`copy`
keys, whose payloads the code never reads.  JSON-level type errors
(`jsonString`/`Unmarshal` failures on ill-typed payloads) are outside the
model: every payload is already of its expected shape. -/
inductive RawNode where
  | mk (search : Option String) (find : Option String) (attr : Option String)
       (hasText : Bool) (doList : Option (List RawNode))
       (regex : Option String) (matchesList : Option (List RawMatch))
       (hasCopy : Bool) (name : Option String) (typ : Option String) : RawNode

def RawNode.search : RawNode → Option String | .mk s _ _ _ _ _ _ _ _ _ => s
def RawNode.find : RawNode → Option String | .mk _ f _ _ _ _ _ _ _ _ => f
def RawNode.attr : RawNode → Option String | .mk _ _ a _ _ _ _ _ _ _ => a
def RawNode.hasText : RawNode → Bool | .mk _ _ _ t _ _ _ _ _ _ => t
def RawNode.doList : RawNode → Option (List RawNode) | .mk _ _ _ _ d _ _ _ _ _ => d
def RawNode.regex : RawNode → Option String | .mk _ _ _ _ _ r _ _ _ _ => r
def RawNode.matchesList : RawNode → Option (List RawMatch) | .mk _ _ _ _ _ _ m _ _ _ => m
def RawNode.hasCopy : RawNode → Bool | .mk _ _ _ _ _ _ _ c _ _ => c
def RawNode.name : RawNode → Option String | .mk _ _ _ _ _ _ _ _ n _ => n
def RawNode.typ : RawNode → Option String | .mk _ _ _ _ _ _ _ _ _ t => t

/-- A goquery selection: a list of abstract DOM node identifiers. -/
abbrev Sel : Type := List Nat

/-- The external collaborators of the interpreter: goquery's selection
operations and Go's `regexp` package.
* `find sel css`: `sel.Find(css)` — matched descendant nodes (possibly
  empty, never nil).
* `attr sel name`: `sel.Attr(name)` — `none` when the selection is empty
  or the first node lacks the attribute.
* `text sel`: `sel.Text()`.
* `regexCompiles pat`: whether `regexp.MustCompile(pat)` succeeds
  (otherwise it panics).
* `regexMatch pat v`: `FindStringSubmatch` — `none` when the pattern does
  not match; otherwise the full match followed by the capture groups. -/
structure Env where
  find : Sel → String → Sel
  attr : Sel → String → Option String
  text : Sel → String
  regexCompiles : String → Bool
  regexMatch : String → String → Option (List String)

/-- Result of evaluating a piece of the interpreter: the caller-visible
state paired with the Go error, or a panic that unwinds the whole
process. -/
inductive CrawlRes (α : Type) where
  | norm (val : α) (err : Option String) : CrawlRes α
  | panicked : CrawlRes α
deriving DecidableEq, Repr

/-- The `for i := 0; i < len(transformMatches); i++` loop of `crawlStore`'s
regex branch: check `name`/`type` presence, then coerce capture group
`i+1` (in-bounds by the preceding match-count check) into the mapping. -/
def storeMatches : List RawMatch → List String → Nat → FieldMap → FieldMap × Option String
  | [], _, _, m => (m, none)
  | tm :: rest, groups, i, m =>
    match tm.name with
    | none => (m, some "match needs a name attribute")
    | some nm =>
      match tm.typ with
      | none => (m, some "match needs a type attribute")
      | some ty =>
        if ty = "int" then
          storeMatches rest groups (i + 1)
            (m.set nm (Val.int (goAtoi (groups.getD (i + 1) "")).1))
        else if ty = "string" then
          storeMatches rest groups (i + 1) (m.set nm (Val.str (groups.getD (i + 1) "")))
        else (m, some ("unknown type " ++ ty))

/-- `crawlStore`: dispatch on the `regex`/`copy` members and write the
extracted value into the current field-mapping.  `regexp.MustCompile` on a
non-compiling pattern panics. -/
def crawlStore (env : Env) (value : String) (t : RawNode) (itemValue : FieldMap) :
    CrawlRes FieldMap :=
  match t.regex with
  | some reg =>
    match t.matchesList with
    | none => .norm itemValue (some "regex node requires a matches attribute")
    | some tms =>
      if env.regexCompiles reg then
        match env.regexMatch reg value with
        | none => .norm itemValue (some "no matches found")
        | some groups =>
          if ((groups.length : Int) - 1 ≠ (tms.length : Int)) then
            .norm itemValue (some "unequal match count")
          else
            let r := storeMatches tms groups 0 itemValue
            .norm r.1 r.2
      else .panicked
  | none =>
    if t.hasCopy then
      match t.name with
      | none => .norm itemValue (some "copy needs a name attribute")
      | some nm =>
        match t.typ with
        | none => .norm itemValue (some "copy needs a type attribute")
        | some ty =>
          if ty = "int" then .norm (itemValue.set nm (Val.int (goAtoi value).1)) none
          else if ty = "string" then .norm (itemValue.set nm (Val.str value)) none
          else .norm itemValue (some ("unknown type " ++ ty))
    else .norm itemValue (some "do not know how to transform")

/-- The `do`-loop of the `attr`/`text` branches of `crawlSelect`: run each
Storage Node against `itemValues[len(itemValues)-1]`, stopping at the
first error (`return nil, err`), with the caller's slice keeping the
partially updated last map.  The Go expression `itemValues[len-1]` would
panic on an empty slice; that state is unreachable (the base call seeds a
one-element slice and nested calls never shrink it), and the embedding
totalises it with `getLastD`/`dropLast`. -/
def storeLoop (env : Env) (v : String) : List RawNode → List FieldMap → CrawlRes (List FieldMap)
  | [], acc => .norm acc none
  | d :: rest, acc =>
    match crawlStore env v d (acc.getLastD ∅) with
    | .panicked => .panicked
    | .norm m' e =>
      let acc' := acc.dropLast ++ [m']
      match e with
      | some msg => .norm acc' (some msg)
      | none => storeLoop env v rest acc'

/-- The append step of the `search` branch, executed after the `do`-list
of matched element `i` of `k` unless the closure returned early on an
error: on a base selection, if this is not the last element and the last
field-mapping is non-empty, append a fresh empty mapping (line 758 of the
source); otherwise the last mapping is reused as is. -/
def appendStep (base : Bool) (k i : Nat) (early : Bool) (acc : List FieldMap) :
    List FieldMap :=
  if ¬early ∧ base ∧ i ≠ k - 1 ∧ (acc.getLastD ∅).size ≠ 0 then acc ++ [∅] else acc

mutual

/-- `crawlSelect`: dispatch on the `search`/`find`/`attr`/`text` members,
in the order of the Go `if`/`else if` chain.  A `nil` incoming mapping
list marks the base call, which seeds one empty field-mapping. -/
def crawlSelect (env : Env) (el : Sel) (t : RawNode) (iv : Option (List FieldMap)) :
    CrawlRes (List FieldMap) :=
  match t with
  | .mk sSearch sFind sAttr bText oDo _ _ _ _ _ =>
    let base := iv.isNone
    let acc0 := iv.getD [∅]
    match sSearch with
    | some sel =>
      match oDo with
      | none => .norm acc0 (some "select node needs a do attribute")
      | some ds =>
        let ns := env.find el sel
        searchEach env ds base ns.length 0 ns acc0 none
    | none =>
    match sFind with
    | some sel =>
      match oDo with
      | none => .norm acc0 (some "select node needs a do attribute")
      | some ds =>
        -- goquery's Find returns a non-nil (possibly empty) selection, so
        -- the source's `if s == nil { return nil, "no element found" }`
        -- check never fires.
        findLoop env (env.find el sel) ds acc0
    | none =>
    match sAttr with
    | some sel =>
      match oDo with
      | none => .norm acc0 (some "select node needs a do attribute")
      | some ds =>
        match env.attr el sel with
        | none => .norm acc0 (some ("no attribute " ++ sel ++ " found"))
        | some v => storeLoop env v ds acc0
    | none =>
    if bText then
      match oDo with
      | none => .norm acc0 (some "select node needs a do attribute")
      | some ds => storeLoop env (env.text el) ds acc0
    else .norm acc0 (some "do not know how to transform")
termination_by (sizeOf t, 0, 0)

/-- The `do`-loop of the `find` branch: recurse into each child against
the found selection, stopping at the first error. -/
def findLoop (env : Env) (el : Sel) (ds : List RawNode) (acc : List FieldMap) :
    CrawlRes (List FieldMap) :=
  match ds with
  | [] => .norm acc none
  | d :: rest =>
    match crawlSelect env el d (some acc) with
    | .panicked => .panicked
    | .norm acc' e =>
      match e with
      | some msg => .norm acc' (some msg)
      | none => findLoop env el rest acc'
termination_by (sizeOf ds, 1, 0)

/-- The body of the `nodes.Each` closure's `do`-loop over one matched
element `s` (a one-node selection): every child call reassigns the
captured `err` variable; a non-nil error returns early from the closure
(third component `true`), skipping the append step but not the remaining
matched elements.  `none` models a panic unwinding the process. -/
def eachLoop (env : Env) (s : Nat) (ds : List RawNode) (acc : List FieldMap)
    (errv : Option String) : Option (List FieldMap × Option String × Bool) :=
  match ds with
  | [] => some (acc, errv, false)
  | d :: rest =>
    match crawlSelect env [s] d (some acc) with
    | .panicked => none
    | .norm acc' e =>
      match e with
      | some msg => some (acc', some msg, true)
      | none => eachLoop env s rest acc' none
termination_by (sizeOf ds, 1, 0)

/-- `nodes.Each` of the `search` branch: run the `do`-list on each matched
element (index `i` of `k`); on a base selection, after a fully processed
element other than the last, append a fresh empty field-mapping when the
last one is non-empty.  After the loop, the captured `err` is returned. -/
def searchEach (env : Env) (ds : List RawNode) (base : Bool) (k i : Nat) (ns : List Nat)
    (acc : List FieldMap) (errv : Option String) : CrawlRes (List FieldMap) :=
  match ns with
  | [] => .norm acc errv
  | s :: rest =>
    match eachLoop env s ds acc errv with
    | none => .panicked
    | some (acc1, errv1, early) =>
      searchEach env ds base k (i + 1) rest (appendStep base k i early acc1) errv1
termination_by (sizeOf ds, 2, ns.length)

end

/-! ## Models of the pipeline, assembler, scheduler and persistence layer -/

/-- Lines 692–694 of the source (`processFeed`): before rendering an item,
inject today's date (`time.Now().Format("2006-01-02")`) under `date` when
the mapping lacks it.  The impure clock is modelled as a stream indexed by
the number of `time.Now()` calls made so far. -/
def injectDate (clock : Nat → String) (m : FieldMap) (k : Nat) : FieldMap × Nat :=
  if m.hasKey "date" then (m, k) else (m.set "date" (Val.str (clock k)), k + 1)

/-- The per-item loop of `processFeed` restricted to its field-mapping
effects: each mapping in turn receives its date default (if needed) and is
then handed to the template renderer.  Returns the mappings as rendered
and the final clock index (= number of `time.Now()` calls). -/
def assembleMaps (clock : Nat → String) : List FieldMap → Nat → List FieldMap × Nat
  | [], k => ([], k)
  | m :: rest, k =>
    let p := injectDate clock m k
    let q := assembleMaps clock rest p.2
    (p.1 :: q.1, q.2)

/-- Number of mappings in a list that lack a `date` key. -/
def countLack (ms : List FieldMap) : Nat :=
  (ms.filter (fun m => !(m.hasKey "date"))).length

/-- Outcome of `processFeed` for one feed, as seen by the worker loop:
a nil error, a non-nil error, or a panic (e.g. `regexp.MustCompile` on an
invalid pattern) that unwinds the goroutine and kills the process. -/
inductive ProcResult where
  | ok : ProcResult
  | errMsg (msg : String) : ProcResult
  | panicked : ProcResult
deriving DecidableEq, Repr

/-- Outcome of a crawler run over a queue of feeds: either all queued
feeds were processed (with their per-feed error, logged and swallowed by
the worker), or a panic crashed the process after the logged prefix. -/
inductive RunOutcome where
  | completed (log : List (Nat × Option String)) : RunOutcome
  | crashed (log : List (Nat × Option String)) : RunOutcome
deriving DecidableEq, Repr

/-- The worker loop of `main` (lines 598–614 of the source): pull a feed,
run `processFeed`, log a non-nil error and continue with the next feed —
an error return never stops the worker, but a panic kills the whole
process, abandoning the rest of the queue. -/
def workerLoop (proc : Nat → ProcResult) : List Nat → RunOutcome
  | [] => .completed []
  | f :: rest =>
    match proc f with
    | .panicked => .crashed []
    | .ok =>
      (match workerLoop proc rest with
       | .completed log => .completed ((f, none) :: log)
       | .crashed log => .crashed ((f, none) :: log))
    | .errMsg msg =>
      (match workerLoop proc rest with
       | .completed log => .completed ((f, some msg) :: log)
       | .crashed log => .crashed ((f, some msg) :: log))

/-- Lines 550–552 of the source: the requested worker count is floored to
1 only when negative (`if opts.Workers < 0`); a requested count of 0 is
kept. -/
def normalizeWorkers (w : Int) : Int := if w < 0 then 1 else w

/-- The spawn loop `for i := 0; i < opts.Workers; i++` of `main`: the list
of worker goroutine ids actually started. -/
def spawnWorkers (w : Int) : List Nat := List.range w.toNat

/-- A row of the `items` table as far as the duplicate check sees it:
`(feed, title, uri, description)`.  `id` and `created` play no role in
deduplication and are omitted. -/
structure ItemRow where
  feed : Int
  title : String
  uri : String
  description : String
deriving DecidableEq, Repr

/-- A rendered feed item handed to the persistence layer. -/
structure Item where
  title : String
  uri : String
  description : String
deriving DecidableEq, Repr

/-- One `INSERT INTO items ... WHERE NOT EXISTS (...)` statement of
`CreateItems` (src/unnamed/part_000, lines 111–116): insert the row unless
a row with the same `(feed, title, uri, description)` already exists. -/
def insertItem (dbI : List ItemRow) (r : ItemRow) : List ItemRow :=
  if r ∈ dbI then dbI else dbI ++ [r]

/-- `CreateItems`: one transaction inserting each item in order with the
per-item duplicate check (the transaction sees its own earlier writes). -/
def createItems (dbI : List ItemRow) (feedId : Int) (its : List Item) : List ItemRow :=
  its.foldl (fun d i => insertItem d ⟨feedId, i.title, i.uri, i.description⟩) dbI

/-! ## Last-map semantics

Nested (non-base) interpreter calls only ever read and write
`itemValues[len(itemValues)-1]`; the following functions compute that
action on the last field-mapping alone (`none` models a panic).  The
context lemmas below prove that the interpreter on `bs ++ [m]` is exactly
this semantics on `m` under the untouched prefix `bs`; they are the formal
counterpart of the spec's "non-base nodes write into the current last
Field-Mapping without creating new ones". -/

/-- Action of a Storage-Node `do`-list on the last field-mapping. -/
def storeLast (env : Env) (v : String) : List RawNode → FieldMap →
    Option (FieldMap × Option String)
  | [], m => some (m, none)
  | d :: rest, m =>
    match crawlStore env v d m with
    | .panicked => none
    | .norm m' e =>
      match e with
      | some msg => some (m', some msg)
      | none => storeLast env v rest m'

mutual

/-- Action of one non-base Extraction Node on the last field-mapping. -/
def selLast (env : Env) (el : Sel) (t : RawNode) (m : FieldMap) :
    Option (FieldMap × Option String) :=
  match t with
  | .mk sSearch sFind sAttr bText oDo _ _ _ _ _ =>
    match sSearch with
    | some sel =>
      match oDo with
      | none => some (m, some "select node needs a do attribute")
      | some ds => searchLast env ds (env.find el sel) m none
    | none =>
    match sFind with
    | some sel =>
      match oDo with
      | none => some (m, some "select node needs a do attribute")
      | some ds => findLast env (env.find el sel) ds m
    | none =>
    match sAttr with
    | some sel =>
      match oDo with
      | none => some (m, some "select node needs a do attribute")
      | some ds =>
        match env.attr el sel with
        | none => some (m, some ("no attribute " ++ sel ++ " found"))
        | some v => storeLast env v ds m
    | none =>
    if bText then
      match oDo with
      | none => some (m, some "select node needs a do attribute")
      | some ds => storeLast env (env.text el) ds m
    else some (m, some "do not know how to transform")
termination_by (sizeOf t, 0, 0)

/-- Action of a `find` node's `do`-list on the last field-mapping. -/
def findLast (env : Env) (el : Sel) (ds : List RawNode) (m : FieldMap) :
    Option (FieldMap × Option String) :=
  match ds with
  | [] => some (m, none)
  | d :: rest =>
    match selLast env el d m with
    | none => none
    | some (m', e) =>
      match e with
      | some msg => some (m', some msg)
      | none => findLast env el rest m'
termination_by (sizeOf ds, 1, 0)

/-- Action of the `Each` closure body for one matched element on the last
field-mapping, with the captured `err` variable and the early-return
flag. -/
def eachLast (env : Env) (s : Nat) (ds : List RawNode) (m : FieldMap)
    (errv : Option String) : Option (FieldMap × Option String × Bool) :=
  match ds with
  | [] => some (m, errv, false)
  | d :: rest =>
    match selLast env [s] d m with
    | none => none
    | some (m', e) =>
      match e with
      | some msg => some (m', some msg, true)
      | none => eachLast env s rest m' none
termination_by (sizeOf ds, 1, 0)

/-- Action of a non-base `search` node's `Each` loop on the last
field-mapping (a non-base selection never appends). -/
def searchLast (env : Env) (ds : List RawNode) (ns : List Nat) (m : FieldMap)
    (errv : Option String) : Option (FieldMap × Option String) :=
  match ns with
  | [] => some (m, errv)
  | s :: rest =>
    match eachLast env s ds m errv with
    | none => none
    | some (m1, errv1, _) => searchLast env ds rest m1 errv1
termination_by (sizeOf ds, 2, ns.length)

end

/-- Lift a last-map action over an untouched prefix of field-mappings. -/
def liftCtx (bs : List FieldMap) : Option (FieldMap × Option String) →
    CrawlRes (List FieldMap)
  | none => .panicked
  | some (m', e) => .norm (bs ++ [m']) e


/-! ## Derived statement forms and concrete instances -/

/-- Statement: a non-base `crawlSelect` call acts only on the last
field-mapping. -/
def SelCtx (t : RawNode) : Prop :=
  ∀ env el bs m, crawlSelect env el t (some (bs ++ [m])) = liftCtx bs (selLast env el t m)

/-- Statement: a `find` node's `do`-loop acts only on the last
field-mapping. -/
def FindCtx (ds : List RawNode) : Prop :=
  ∀ env el bs m, findLoop env el ds (bs ++ [m]) = liftCtx bs (findLast env el ds m)

/-- Statement: the `Each` closure body acts only on the last
field-mapping. -/
def EachCtx (ds : List RawNode) : Prop :=
  ∀ env s bs m errv, eachLoop env s ds (bs ++ [m]) errv =
    Option.map (fun p : FieldMap × Option String × Bool => (bs ++ [p.1], p.2))
      (eachLast env s ds m errv)

/-- Statement: a non-base `search` node's `Each` loop acts only on the
last field-mapping. -/
def SearchCtx (ds : List RawNode) : Prop :=
  ∀ env k i ns bs m errv, searchEach env ds false k i ns (bs ++ [m]) errv =
    liftCtx bs (searchLast env ds ns m errv)


/-- The isolated run of a base `search` sibling's `do`-list: its action on
a fresh empty field-mapping (`eachLast` starting from `∅`). -/
def isoRun (env : Env) (ds : List RawNode) (s : Nat) :
    Option (FieldMap × Option String × Bool) :=
  eachLast env s ds ∅ none

/-- The field-mapping produced by one base `search` sibling in isolation:
exactly the keys written while visiting that sibling's subtree. -/
def isoMap (env : Env) (ds : List RawNode) (s : Nat) : FieldMap :=
  match isoRun env ds s with
  | some p => p.1
  | none => ∅

/-! ## Concrete instances for witnesses and counterexamples -/

/-- A page on which every selector matches nothing: `Find` yields the
empty selection, no attributes exist, all text is empty. -/
def env0 : Env :=
  { find := fun _ _ => [], attr := fun _ _ => none, text := fun _ => "",
    regexCompiles := fun _ => true, regexMatch := fun _ _ => none }

/-- A page with two `div` siblings (nodes 1 and 2) under the root `[0]`,
with texts `a` and `b`. -/
def envTwo : Env :=
  { find := fun s css => if css = "div" ∧ s = [0] then [1, 2] else [],
    attr := fun _ _ => none,
    text := fun s => if s = [1] then "a" else if s = [2] then "b" else "",
    regexCompiles := fun _ => true, regexMatch := fun _ _ => none }

/-- A regex collaborator where pattern `p` matches value `v` with the
single capture group `42`. -/
def envRx : Env :=
  { find := fun _ _ => [], attr := fun _ _ => none, text := fun _ => "",
    regexCompiles := fun _ => true,
    regexMatch := fun pat v => if pat = "p" ∧ v = "v" then some ["v", "42"] else none }

/-- A regex collaborator on which the pattern `(` does not compile, as for
Go's `regexp.MustCompile("(")`. -/
def envBadRx : Env :=
  { find := fun _ _ => [], attr := fun _ _ => none, text := fun _ => "",
    regexCompiles := fun pat => pat ≠ "(", regexMatch := fun _ _ => none }

/-- Storage Node `{"copy": ..., "name": "x", "type": "string"}`. -/
def tCopyX : RawNode := .mk none none none false none none none true (some "x") (some "string")

/-- Storage Node `{"copy": ..., "name": "x", "type": "int"}`. -/
def tCopyIntX : RawNode := .mk none none none false none none none true (some "x") (some "int")

/-- Extraction Node `{"text": ..., "do": [tCopyX]}`. -/
def tTextX : RawNode := .mk none none none true (some [tCopyX]) none none false none none

/-- Extraction Node `{"search": "div", "do": [tTextX]}`. -/
def tSearchDiv : RawNode := .mk (some "div") none none false (some [tTextX]) none none false none none

/-- Extraction Node `{"search": "s", "do": []}`. -/
def tSearchS : RawNode := .mk (some "s") none none false (some []) none none false none none

/-- Extraction Node `{"search": "a", "do": [tTextX]}`. -/
def tSearchA : RawNode := .mk (some "a") none none false (some [tTextX]) none none false none none

/-- Extraction Node `{"find": "a", "do": [tTextX]}`. -/
def tFindA : RawNode := .mk none (some "a") none false (some [tTextX]) none none false none none

/-- A node carrying both a `search` and a `find` member. -/
def tBoth : RawNode := .mk (some "s") (some "f") none false (some []) none none false none none

/-- Storage Node `{"regex": "p", "matches": [{"name": "id", "type": "int"}]}`. -/
def tRx : RawNode :=
  .mk none none none false none (some "p") (some [{ name := some "id", typ := some "int" }])
    false none none

/-- Storage Node `{"regex": "(", "matches": []}` — its pattern does not
compile. -/
def tBadRx : RawNode := .mk none none none false none (some "(") (some []) false none none

/-- The node `t` reduced to its `search` member (and `do`-list) only. -/
def onlySearch (t : RawNode) : RawNode :=
  .mk t.search none none false t.doList none none false none none

/-- The node `t` reduced to its `find` member (and `do`-list) only. -/
def onlyFind (t : RawNode) : RawNode :=
  .mk none t.find none false t.doList none none false none none

/-- The node `t` reduced to its `attr` member (and `do`-list) only. -/
def onlyAttr (t : RawNode) : RawNode :=
  .mk none none t.attr false t.doList none none false none none

/-- The node `t` reduced to its `text` member (and `do`-list) only. -/
def onlyText (t : RawNode) : RawNode :=
  .mk none none none true t.doList none none false none none

/-- A per-feed outcome where feed 1 panics (e.g. its transform holds the
regex Storage Node `tBadRx`) and every other feed succeeds. -/
def procBad (f : Nat) : ProcResult := if f = 1 then .panicked else .ok

/-- A concrete clock stream: `time.Now()` call `k` renders as `d0`,
`d1`, ... -/
def clockW (k : Nat) : String := if k = 0 then "d0" else if k = 1 then "d1" else "dX"

/-- Three field-mappings: one already dated, one empty, one undated with a
key. -/
def msW : List FieldMap := [[("date", Val.str "preset")], [], [("t", Val.int 1)]]

/-! ## Basic lemmas -/

theorem FieldMap.get_set (m : FieldMap) (k k' : String) (v : Val) :
    (m.set k v).get k' = if k' = k then some v else m.get k' := by
  induction m with
  | nil =>
    by_cases h : k' = k
    · subst h; simp [FieldMap.set, FieldMap.get]
    · have h2 : ¬(k = k') := fun hh => h hh.symm
      simp [FieldMap.set, FieldMap.get, h, h2]
  | cons p rest ih =>
    by_cases hp : p.1 = k
    · by_cases h : k' = k
      · subst h; simp [FieldMap.set, FieldMap.get, hp]
      · have h2 : ¬(k = k') := fun hh => h hh.symm
        have h3 : ¬(p.1 = k') := by rw [hp]; exact h2
        simp [FieldMap.set, FieldMap.get, List.find?, hp, h, h2, h3]
    · simp only [FieldMap.set, hp, if_false]
      by_cases h : p.1 = k'
      · have hne : ¬(k' = k) := fun hh => hp (h.trans hh)
        simp [FieldMap.get, List.find?, h, hne]
      · simpa [FieldMap.get, List.find?, h] using ih

theorem FieldMap.set_ne_nil (m : FieldMap) (k : String) (v : Val) : m.set k v ≠ [] := by
  cases m with
  | nil => simp [FieldMap.set]
  | cons p rest =>
    by_cases hp : p.1 = k <;> simp [FieldMap.set, hp]

/-- Context lemma for the Storage-Node loop. -/
theorem storeLoop_ctx (env : Env) (v : String) (ds : List RawNode) :
    ∀ (bs : List FieldMap) (m : FieldMap),
    storeLoop env v ds (bs ++ [m]) = liftCtx bs (storeLast env v ds m) := by
  induction ds with
  | nil => intro bs m; simp [storeLoop, storeLast, liftCtx]
  | cons d rest ih =>
    intro bs m
    simp only [storeLoop, storeLast, List.getLastD_concat, List.dropLast_concat]
    cases hc : crawlStore env v d m with
    | panicked => simp [liftCtx]
    | norm m' e =>
      cases e with
      | some msg => simp [liftCtx]
      | none => exact ih bs m'

/-- All context statements, proved simultaneously by strong induction on
the node size, following the mutual recursion of the interpreter. -/
theorem ctx_main : ∀ n : Nat,
    (∀ t : RawNode, sizeOf t ≤ n → SelCtx t) ∧
    (∀ ds : List RawNode, sizeOf ds ≤ n → FindCtx ds ∧ EachCtx ds ∧ SearchCtx ds) := by
  intro n
  induction n using Nat.strong_induction_on with
  | _ n IH =>
    have hSel : ∀ t : RawNode, sizeOf t < n → SelCtx t :=
      fun t h => (IH (sizeOf t) h).1 t le_rfl
    have hFind : ∀ ds : List RawNode, sizeOf ds < n → FindCtx ds :=
      fun ds h => ((IH (sizeOf ds) h).2 ds le_rfl).1
    have hEach : ∀ ds : List RawNode, sizeOf ds < n → EachCtx ds :=
      fun ds h => ((IH (sizeOf ds) h).2 ds le_rfl).2.1
    have hSearch : ∀ ds : List RawNode, sizeOf ds < n → SearchCtx ds :=
      fun ds h => ((IH (sizeOf ds) h).2 ds le_rfl).2.2
    -- the `do`-list level statements, for any list of size at most n
    have dsPart : ∀ ds : List RawNode, sizeOf ds ≤ n →
        FindCtx ds ∧ EachCtx ds ∧ SearchCtx ds := by
      intro ds hds
      have hF : FindCtx ds := by
        cases ds with
        | nil => intro env el bs m; simp [findLoop, findLast, liftCtx]
        | cons d rest =>
          intro env el bs m
          have hdn : sizeOf d < n := by
            have : sizeOf d < sizeOf (d :: rest) := by simp <;> omega
            omega
          have hrn : sizeOf rest < n := by
            have : sizeOf rest < sizeOf (d :: rest) := by simp <;> omega
            omega
          simp only [findLoop, findLast]
          rw [hSel d hdn env el bs m]
          cases hs : selLast env el d m with
          | none => simp [liftCtx]
          | some p =>
            obtain ⟨m', e⟩ := p
            cases e with
            | some msg => simp [liftCtx]
            | none =>
              simp only [liftCtx]
              exact hFind rest hrn env el bs m'
      have hE : EachCtx ds := by
        cases ds with
        | nil => intro env s bs m errv; simp [eachLoop, eachLast]
        | cons d rest =>
          intro env s bs m errv
          have hdn : sizeOf d < n := by
            have : sizeOf d < sizeOf (d :: rest) := by simp <;> omega
            omega
          have hrn : sizeOf rest < n := by
            have : sizeOf rest < sizeOf (d :: rest) := by simp <;> omega
            omega
          simp only [eachLoop, eachLast]
          rw [hSel d hdn env [s] bs m]
          cases hs : selLast env [s] d m with
          | none => simp [liftCtx]
          | some p =>
            obtain ⟨m', e⟩ := p
            cases e with
            | some msg => simp [liftCtx]
            | none =>
              simp only [liftCtx]
              exact hEach rest hrn env s bs m' none
      have hS : SearchCtx ds := by
        intro env k i ns
        induction ns generalizing i with
        | nil => intro bs m errv; simp [searchEach, searchLast, liftCtx]
        | cons s rest ihn =>
          intro bs m errv
          simp only [searchEach, searchLast]
          rw [hE env s bs m errv]
          cases he : eachLast env s ds m errv with
          | none => simp [liftCtx]
          | some p =>
            obtain ⟨m1, errv1, early⟩ := p
            have hap : appendStep false k i early (bs ++ [m1]) = bs ++ [m1] := by
              simp [appendStep]
            simp only [Option.map_some']
            rw [hap]
            exact ihn (i + 1) bs m1 errv1
      exact ⟨hF, hE, hS⟩
    refine ⟨?_, dsPart⟩
    rintro ⟨sS, sF, sA, bT, oDo, r, ml, c, nm, ty⟩ ht env el bs m
    have hdo : ∀ ds, oDo = some ds → sizeOf ds < n := by
      intro ds heq
      subst heq
      have : sizeOf ds < sizeOf (RawNode.mk sS sF sA bT (some ds) r ml c nm ty) := by
        simp <;> omega
      omega
    cases sS with
    | some sel =>
      cases oDo with
      | none => simp [crawlSelect, selLast, liftCtx]
      | some ds =>
        simp only [crawlSelect, selLast, Option.isNone_some, Option.getD_some]
        exact hSearch ds (hdo ds rfl) env (env.find el sel).length 0 (env.find el sel) bs m none
    | none =>
      cases sF with
      | some sel =>
        cases oDo with
        | none => simp [crawlSelect, selLast, liftCtx]
        | some ds =>
          simp only [crawlSelect, selLast, Option.isNone_some, Option.getD_some]
          exact hFind ds (hdo ds rfl) env (env.find el sel) bs m
      | none =>
        cases sA with
        | some sel =>
          cases oDo with
          | none => simp [crawlSelect, selLast, liftCtx]
          | some ds =>
            simp only [crawlSelect, selLast, Option.isNone_some, Option.getD_some]
            cases env.attr el sel with
            | none => simp [liftCtx]
            | some v => exact storeLoop_ctx env v ds bs m
        | none =>
          cases bT with
          | false => cases oDo <;> simp [crawlSelect, selLast, liftCtx]
          | true =>
            cases oDo with
            | none => simp [crawlSelect, selLast, liftCtx]
            | some ds =>
              simp only [crawlSelect, selLast, Option.isNone_some, Option.getD_some]
              exact storeLoop_ctx env (env.text el) ds bs m

/-- Context corollary for non-base `crawlSelect`. -/
theorem crawlSelect_ctx (t : RawNode) : SelCtx t := (ctx_main (sizeOf t)).1 t le_rfl

/-- Context corollary for `findLoop`. -/
theorem findLoop_ctx (ds : List RawNode) : FindCtx ds :=
  ((ctx_main (sizeOf ds)).2 ds le_rfl).1

/-- Context corollary for `eachLoop`. -/
theorem eachLoop_ctx (ds : List RawNode) : EachCtx ds :=
  ((ctx_main (sizeOf ds)).2 ds le_rfl).2.1

/-- Context corollary for non-base `searchEach`. -/
theorem searchEach_ctx (ds : List RawNode) : SearchCtx ds :=
  ((ctx_main (sizeOf ds)).2 ds le_rfl).2.2

/-- Base `search` loop, all siblings succeeding with a non-empty isolated
mapping: the accumulated list is the prefix `bs` followed by one mapping
per sibling, each being that sibling's isolated-run mapping. -/
theorem searchEach_base (env : Env) (ds : List RawNode) (k : Nat) :
    ∀ (ns : List Nat) (i : Nat) (bs : List FieldMap),
    (∀ s ∈ ns, isoRun env ds s = some (isoMap env ds s, none, false) ∧ isoMap env ds s ≠ ∅) →
    ns ≠ [] → i + ns.length = k →
    searchEach env ds true k i ns (bs ++ [∅]) none =
      .norm (bs ++ ns.map (isoMap env ds)) none := by
  intro ns
  induction ns with
  | nil => intro i bs _ hne; exact absurd rfl hne
  | cons s rest ih =>
    intro i bs hok _ hk
    obtain ⟨h1, h2⟩ := hok s (List.mem_cons_self ..)
    simp only [searchEach]
    rw [eachLoop_ctx ds env s bs ∅ none]
    rw [show eachLast env s ds ∅ none = isoRun env ds s from rfl, h1]
    simp only [Option.map_some']
    cases rest with
    | nil =>
      have hik : i = k - 1 := by simp at hk; omega
      have hap : appendStep true k i false (bs ++ [isoMap env ds s]) = bs ++ [isoMap env ds s] := by
        simp [appendStep, hik]
      rw [hap]
      simp [searchEach]
    | cons s2 rest2 =>
      have hik : ¬(i = k - 1) := by
        have : i + (s2 :: rest2).length + 1 = k := by simpa [Nat.add_comm, Nat.add_left_comm] using hk
        simp at this ⊢
        omega
      have hsz : ¬((isoMap env ds s).size = 0) := by
        simpa [FieldMap.size, List.length_eq_zero] using h2
      have hap : appendStep true k i false (bs ++ [isoMap env ds s]) =
          (bs ++ [isoMap env ds s]) ++ [∅] := by
        simp [appendStep, hik, hsz]
      rw [hap]
      rw [ih (i + 1) (bs ++ [isoMap env ds s]) (fun s' hs' => hok s' (by simp [hs']))
        (by simp) (by simp at hk ⊢; omega)]
      simp

/-- The `search` loop never shrinks a non-empty accumulated list. -/
theorem searchEach_ne_nil (env : Env) (ds : List RawNode) (base : Bool) (k : Nat) :
    ∀ (ns : List Nat) (i : Nat) (acc : List FieldMap) (errv : Option String)
      (l : List FieldMap) (e : Option String),
    acc ≠ [] → searchEach env ds base k i ns acc errv = .norm l e → l ≠ [] := by
  intro ns
  induction ns with
  | nil =>
    intro i acc errv l e hne heq
    simp only [searchEach, CrawlRes.norm.injEq] at heq
    rw [← heq.1]
    exact hne
  | cons s rest ih =>
    intro i acc errv l e hne heq
    obtain ⟨bs, m, rfl⟩ : ∃ bs m, acc = bs ++ [m] :=
      ⟨acc.dropLast, acc.getLast hne, (List.dropLast_append_getLast hne).symm⟩
    simp only [searchEach] at heq
    rw [eachLoop_ctx ds env s bs m errv] at heq
    cases he : eachLast env s ds m errv with
    | none => rw [he] at heq; simp at heq
    | some p =>
      rw [he] at heq
      simp only [Option.map_some'] at heq
      have hne2 : appendStep base k i p.2.2 (bs ++ [p.1]) ≠ [] := by
        unfold appendStep
        split <;> simp
      exact ih (i + 1) _ _ l e hne2 heq

/-- A base `crawlSelect` call that returns normally (error or not) returns
a non-empty field-mapping list. -/
theorem crawlSelect_base_ne_nil (env : Env) (el : Sel) (t : RawNode)
    (l : List FieldMap) (e : Option String)
    (h : crawlSelect env el t none = .norm l e) : l ≠ [] := by
  obtain ⟨sS, sF, sA, bT, oDo, r, ml, c, nm, ty⟩ := t
  cases sS with
  | some sel =>
    cases oDo with
    | none =>
      simp only [crawlSelect, Option.isNone_none, Option.getD_none, CrawlRes.norm.injEq] at h
      rw [← h.1]; simp
    | some ds =>
      simp only [crawlSelect, Option.isNone_none, Option.getD_none] at h
      exact searchEach_ne_nil env ds true (env.find el sel).length (env.find el sel) 0
        [∅] none l e (by simp) h
  | none =>
    cases sF with
    | some sel =>
      cases oDo with
      | none =>
        simp only [crawlSelect, Option.isNone_none, Option.getD_none, CrawlRes.norm.injEq] at h
        rw [← h.1]; simp
      | some ds =>
        simp only [crawlSelect, Option.isNone_none, Option.getD_none] at h
        rw [show ([∅] : List FieldMap) = [] ++ [∅] from rfl,
          findLoop_ctx ds env (env.find el sel) [] ∅] at h
        cases hf : findLast env (env.find el sel) ds ∅ with
        | none => rw [hf] at h; simp [liftCtx] at h
        | some p =>
          rw [hf] at h
          simp only [liftCtx, CrawlRes.norm.injEq, List.nil_append] at h
          rw [← h.1]; simp
    | none =>
      cases sA with
      | some sel =>
        cases oDo with
        | none =>
          simp only [crawlSelect, Option.isNone_none, Option.getD_none, CrawlRes.norm.injEq] at h
          rw [← h.1]; simp
        | some ds =>
          simp only [crawlSelect, Option.isNone_none, Option.getD_none] at h
          cases ha : env.attr el sel with
          | none =>
            rw [ha] at h
            simp only [CrawlRes.norm.injEq] at h
            rw [← h.1]; simp
          | some v =>
            rw [ha] at h
            have h' : storeLoop env v ds ([] ++ [∅]) = CrawlRes.norm l e := h
            rw [storeLoop_ctx env v ds [] ∅] at h'
            replace h := h'
            cases hs : storeLast env v ds ∅ with
            | none => rw [hs] at h; simp [liftCtx] at h
            | some p =>
              rw [hs] at h
              simp only [liftCtx, CrawlRes.norm.injEq, List.nil_append] at h
              rw [← h.1]; simp
      | none =>
        cases bT with
        | false =>
          cases oDo with
          | none =>
            simp only [crawlSelect, Option.isNone_none, Option.getD_none,
              Bool.false_eq_true, if_false, CrawlRes.norm.injEq] at h
            rw [← h.1]; simp
          | some ds =>
            simp only [crawlSelect, Option.isNone_none, Option.getD_none,
              Bool.false_eq_true, if_false, CrawlRes.norm.injEq] at h
            rw [← h.1]; simp
        | true =>
          cases oDo with
          | none =>
            simp only [crawlSelect, Option.isNone_none, Option.getD_none,
              if_true, CrawlRes.norm.injEq] at h
            rw [← h.1]; simp
          | some ds =>
            simp only [crawlSelect, Option.isNone_none, Option.getD_none] at h
            have h' : storeLoop env (env.text el) ds ([] ++ [∅]) = CrawlRes.norm l e := h
            rw [storeLoop_ctx env (env.text el) ds [] ∅] at h'
            replace h := h'
            cases hs : storeLast env (env.text el) ds ∅ with
            | none => rw [hs] at h; simp [liftCtx] at h
            | some p =>
              rw [hs] at h
              simp only [liftCtx, CrawlRes.norm.injEq, List.nil_append] at h
              rw [← h.1]; simp

/-! ## Persistence lemmas -/

theorem mem_createItems_of_mem (f : Int) (its : List Item) :
    ∀ (dbI : List ItemRow) (x : ItemRow), x ∈ dbI → x ∈ createItems dbI f its := by
  induction its with
  | nil => intro dbI x h; simpa [createItems] using h
  | cons i rest ih =>
    intro dbI x h
    have hx : x ∈ insertItem dbI ⟨f, i.title, i.uri, i.description⟩ := by
      unfold insertItem
      split
      · exact h
      · exact List.mem_append_left _ h
    simpa [createItems] using ih _ x hx

theorem mem_createItems (f : Int) (its : List Item) :
    ∀ (dbI : List ItemRow), ∀ i ∈ its,
      (⟨f, i.title, i.uri, i.description⟩ : ItemRow) ∈ createItems dbI f its := by
  induction its with
  | nil => intro dbI i h; simp at h
  | cons j rest ih =>
    intro dbI i h
    rcases List.mem_cons.mp h with h1 | h2
    · subst h1
      have hx : (⟨f, i.title, i.uri, i.description⟩ : ItemRow) ∈
          insertItem dbI ⟨f, i.title, i.uri, i.description⟩ := by
        unfold insertItem
        split
        · assumption
        · simp
      simpa [createItems] using mem_createItems_of_mem f rest _ _ hx
    · simpa [createItems] using ih _ i h2

theorem createItems_stable (f : Int) (its : List Item) :
    ∀ (dbI : List ItemRow),
    (∀ i ∈ its, (⟨f, i.title, i.uri, i.description⟩ : ItemRow) ∈ dbI) →
    createItems dbI f its = dbI := by
  induction its with
  | nil => intro dbI _; simp [createItems]
  | cons i rest ih =>
    intro dbI h
    have h1 := h i (List.mem_cons_self ..)
    have hins : insertItem dbI ⟨f, i.title, i.uri, i.description⟩ = dbI := by
      unfold insertItem
      rw [if_pos h1]
    have step : createItems dbI f (i :: rest) =
        createItems (insertItem dbI ⟨f, i.title, i.uri, i.description⟩) f rest := rfl
    rw [step, hins]
    exact ih dbI (fun j hj => h j (List.mem_cons_of_mem _ hj))

/-- C8.  Idempotence of item persistence: inserting the same item list
twice yields the same persisted table as inserting it once — an item whose
`(feed, title, uri, description)` quadruple is already present is silently
skipped, not duplicated and not an error. -/
theorem c8_insertItems_idempotent (dbI : List ItemRow) (f : Int) (its : List Item) :
    createItems (createItems dbI f its) f its = createItems dbI f its :=
  createItems_stable f its _ (fun i hi => mem_createItems f its dbI i hi)

/-- C9.  The worker-count floor fires only for negative requests: a
requested count of 0 stays 0, so the spawn loop starts no workers at all
(and `main` then blocks forever on the first `feedQueue <- feed` send),
contradicting the claimed `max(requested, 1)` floor. -/
theorem c9_workers_zero_eval :
    normalizeWorkers 0 = 0 ∧ spawnWorkers (normalizeWorkers 0) = [] ∧
    normalizeWorkers (-3) = 1 ∧ normalizeWorkers 2 = 2 := by
  refine ⟨?_, ?_, ?_, ?_⟩ <;> decide

/-- C5.  A Storage Node whose regex pattern does not compile makes
`regexp.MustCompile` panic, and the panic kills the whole process: in a
batch `[0, 1, 2]` where feed 1 panics, feed 0 is the only feed ever
logged and feed 2 is never processed — the failure is not isolated to its
own source. -/
theorem c5_panic_kills_batch :
    crawlStore envBadRx "v" tBadRx ∅ = .panicked ∧
    workerLoop procBad [0, 1, 2] = .crashed [(0, none)] := by
  refine ⟨?_, ?_⟩ <;> decide

/-! ## Date-defaulting lemmas -/

theorem countLack_cons (m : FieldMap) (l : List FieldMap) :
    countLack (m :: l) = (if m.hasKey "date" then 0 else 1) + countLack l := by
  by_cases hd : m.hasKey "date" <;> simp [countLack, List.filter, hd] <;> omega

theorem assembleMaps_spec (clock : Nat → String) :
    ∀ (ms : List FieldMap) (k : Nat),
      (assembleMaps clock ms k).2 = k + countLack ms ∧
      ∀ i, i < ms.length →
        (assembleMaps clock ms k).1.getD i ∅ =
          (if (ms.getD i ∅).hasKey "date" then ms.getD i ∅
           else (ms.getD i ∅).set "date" (Val.str (clock (k + countLack (ms.take i))))) := by
  intro ms
  induction ms with
  | nil =>
    intro k
    refine ⟨by simp [assembleMaps, countLack], ?_⟩
    intro i hi
    simp at hi
  | cons m rest ih =>
    intro k
    by_cases hd : m.hasKey "date"
    · have hinj : injectDate clock m k = (m, k) := by simp [injectDate, hd]
      have hif : (if m.hasKey "date" = true then (0 : Nat) else 1) = 0 := by simp [hd]
      refine ⟨?_, ?_⟩
      · have h2 := (ih k).1
        simp only [assembleMaps, hinj]
        rw [h2, countLack_cons, hif]
        omega
      · intro i hi
        cases i with
        | zero => simp [assembleMaps, hinj, hd]
        | succ i =>
          have h2 := (ih k).2 i (by simpa using hi)
          simp only [assembleMaps, hinj, List.getD_cons_succ, List.take_succ_cons,
            countLack_cons, hif]
          rw [show k + (0 + countLack (List.take i rest)) = k + countLack (List.take i rest)
            from by omega]
          exact h2
    · have hinj : injectDate clock m k = (m.set "date" (Val.str (clock k)), k + 1) := by
        simp [injectDate, hd]
      have hif : (if m.hasKey "date" = true then (0 : Nat) else 1) = 1 := by simp [hd]
      refine ⟨?_, ?_⟩
      · have h2 := (ih (k + 1)).1
        simp only [assembleMaps, hinj]
        rw [h2, countLack_cons, hif]
        omega
      · intro i hi
        cases i with
        | zero => simp [assembleMaps, hinj, hd, countLack]
        | succ i =>
          have h2 := (ih (k + 1)).2 i (by simpa using hi)
          simp only [assembleMaps, hinj, List.getD_cons_succ, List.take_succ_cons,
            countLack_cons, hif]
          rw [show k + (1 + countLack (List.take i rest)) = k + 1 + countLack (List.take i rest)
            from by omega]
          exact h2

theorem countLack_take_succ (ms : List FieldMap) :
    ∀ i, i < ms.length →
    countLack (ms.take (i + 1)) =
      countLack (ms.take i) + (if (ms.getD i ∅).hasKey "date" then 0 else 1) := by
  induction ms with
  | nil => intro i hi; simp at hi
  | cons m rest ih =>
    intro i hi
    cases i with
    | zero => cases hk : m.hasKey "date" <;> simp [countLack, List.filter, hk]
    | succ i =>
      simp only [List.take_succ_cons, countLack_cons, List.getD_cons_succ]
      rw [ih i (by simpa using hi)]
      omega

theorem countLack_take_mono (ms : List FieldMap) :
    ∀ i j, i ≤ j → countLack (ms.take i) ≤ countLack (ms.take j) := by
  intro i j hij
  induction j with
  | zero =>
    have : i = 0 := by omega
    subst this
    exact le_rfl
  | succ j ihj =>
    rcases Nat.lt_or_ge i (j + 1) with h | h
    · have hij' : i ≤ j := by omega
      have hm := ihj hij'
      rcases Nat.lt_or_ge j ms.length with hl | hl
      · have hs := countLack_take_succ ms j hl
        cases hk : (ms.getD j ∅).hasKey "date" <;> rw [hk] at hs <;> simp at hs <;> omega
      · have h1 : ms.take (j + 1) = ms := List.take_of_length_le (by omega)
        have h2 : ms.take j = ms := List.take_of_length_le (by omega)
        rw [h1]
        nth_rewrite 2 [← h2]
        exact hm
    · have : i = j + 1 := by omega
      subst this
      exact le_rfl

theorem countLack_take_ne (ms : List FieldMap) (i j : Nat) (hij : i < j) (hj : j ≤ ms.length)
    (hi : ¬(ms.getD i ∅).hasKey "date") :
    countLack (ms.take i) ≠ countLack (ms.take j) := by
  have hiL : i < ms.length := by omega
  have hs := countLack_take_succ ms i hiL
  rw [if_neg hi] at hs
  have hm := countLack_take_mono ms (i + 1) j hij
  omega

/-- C7.  Date defaulting in the item assembler: a mapping lacking `date`
gets `clock c_i` injected before rendering, where `c_i` counts the
undated mappings before it — one fresh `time.Now()` call per item, the
total number of calls being the number of undated mappings, never one
shared per-source value; a mapping that already has `date` is left
unchanged; distinct undated items always receive distinct clock calls. -/
theorem c7_date_default (clock : Nat → String) (ms : List FieldMap) :
    (∀ i, i < ms.length →
      (assembleMaps clock ms 0).1.getD i ∅ =
        (if (ms.getD i ∅).hasKey "date" then ms.getD i ∅
         else (ms.getD i ∅).set "date" (Val.str (clock (countLack (ms.take i)))))) ∧
    (assembleMaps clock ms 0).2 = countLack ms ∧
    (∀ i j, i < j → j < ms.length →
      ¬(ms.getD i ∅).hasKey "date" → ¬(ms.getD j ∅).hasKey "date" →
      countLack (ms.take i) ≠ countLack (ms.take j)) := by
  refine ⟨?_, ?_, ?_⟩
  · intro i hi
    simpa using (assembleMaps_spec clock ms 0).2 i hi
  · simpa using (assembleMaps_spec clock ms 0).1
  · intro i j hij hj hi _
    exact countLack_take_ne ms i j hij (by omega) hi

/-- Witness for C7 at a concrete list of mappings and clock. -/
theorem c7_date_default_witness :
    1 < msW.length ∧
    (assembleMaps clockW msW 0).1.getD 1 ∅ = [("date", Val.str "d0")] ∧
    (assembleMaps clockW msW 0).2 = 2 := by
  have h := c7_date_default clockW msW
  refine ⟨by decide, ?_, ?_⟩
  · have h1 := h.1 1 (by decide)
    simpa [msW, clockW, countLack, FieldMap.hasKey, FieldMap.set] using h1
  · have h2 := h.2.1
    simpa [msW, clockW, countLack, FieldMap.hasKey] using h2

/-! ## Atoi lemmas and type coercion (C3) -/

theorem goAtoi_malformed (s : String) (h : (goAtoi s).2 = some AtoiErr.malformed) :
    (goAtoi s).1 = 0 := by
  unfold goAtoi at h ⊢
  cases hp : parseDigits (splitSign s.toList).2 with
  | none => simp [hp]
  | some n =>
    rw [hp] at h
    simp only at h ⊢
    split_ifs at h ⊢ <;> simp_all

theorem goAtoi_outOfRange (s : String) (h : (goAtoi s).2 = some AtoiErr.outOfRange) :
    (goAtoi s).1 = intMax64 ∨ (goAtoi s).1 = intMin64 := by
  unfold goAtoi at h ⊢
  cases hp : parseDigits (splitSign s.toList).2 with
  | none => rw [hp] at h; simp at h
  | some n =>
    rw [hp] at h
    simp only at h ⊢
    split_ifs at h ⊢ <;> simp_all

/-- C3 (amended).  `type: "int"` coercion in a `copy` Storage Node always
stores `Atoi`'s result and swallows its error: a syntactically malformed
numeral stores the zero value 0, while a syntactically valid numeral out
of the 64-bit range stores the clamped bound `MaxInt64`/`MinInt64`, not 0;
in neither case is an error returned.  The regex path coerces each capture
group through the same swallowed `Atoi` (last conjunct). -/
theorem c3_int_coercion (env : Env) (v : String) (t : RawNode) (m : FieldMap) (nm : String)
    (hr : t.regex = none) (hc : t.hasCopy = true) (hn : t.name = some nm)
    (ht : t.typ = some "int") :
    crawlStore env v t m = .norm (m.set nm (Val.int (goAtoi v).1)) none ∧
    ((goAtoi v).2 = some AtoiErr.malformed → (goAtoi v).1 = 0) ∧
    ((goAtoi v).2 = some AtoiErr.outOfRange →
      (goAtoi v).1 = intMax64 ∨ (goAtoi v).1 = intMin64) ∧
    (∀ (gs : List String) (i : Nat) (mm : FieldMap),
      storeMatches [⟨some nm, some "int"⟩] gs i mm =
        (mm.set nm (Val.int (goAtoi (gs.getD (i + 1) "")).1), none)) := by
  refine ⟨?_, goAtoi_malformed v, goAtoi_outOfRange v, fun gs i mm => rfl⟩
  simp [crawlStore, hr, hc, hn, ht]

/-- Counterexample to C3 as stated: the out-of-range numeral 2^63 does not
parse as a 64-bit integer (`Atoi` returns `ErrRange`), yet the stored
value is the clamped `MaxInt64`, not the zero value 0. -/
theorem c3_counterexample :
    crawlStore env0 "9223372036854775808" tCopyIntX ∅ =
      .norm [("x", Val.int 9223372036854775807)] none ∧
    (goAtoi "9223372036854775808").2 = some AtoiErr.outOfRange ∧
    (9223372036854775807 : Int) ≠ 0 := by
  refine ⟨by decide, by decide, by decide⟩

/-- Witness for the amended C3 at the spec's own example input `abc`. -/
theorem c3_int_coercion_witness :
    crawlStore env0 "abc" tCopyIntX ∅ = .norm [("x", Val.int 0)] none ∧
    (goAtoi "abc").2 = some AtoiErr.malformed := by
  have h := (c3_int_coercion env0 "abc" tCopyIntX ∅ "x" rfl rfl rfl rfl).1
  refine ⟨?_, by decide⟩
  rw [h]
  decide

/-! ## Regex Storage-Node lemmas (C4) -/

theorem storeMatches_spec (groups : List String) :
    ∀ (tms : List RawMatch) (j : Nat) (m : FieldMap),
    (∀ tm ∈ tms, ∃ nm ty, tm.name = some nm ∧ tm.typ = some ty ∧ (ty = "int" ∨ ty = "string")) →
    (tms.map RawMatch.name).Nodup →
    ∃ m', storeMatches tms groups j m = (m', none) ∧
      (∀ i nm ty, i < tms.length → tms.getD i ⟨none, none⟩ = ⟨some nm, some ty⟩ →
        m'.get nm = some (if ty = "int" then Val.int (goAtoi (groups.getD (j + i + 1) "")).1
                          else Val.str (groups.getD (j + i + 1) ""))) ∧
      (∀ k, (∀ tm ∈ tms, tm.name ≠ some k) → m'.get k = m.get k) := by
  intro tms
  induction tms with
  | nil =>
    intro j m _ _
    refine ⟨m, rfl, ?_, ?_⟩
    · intro i nm ty hi; simp at hi
    · intro k _; rfl
  | cons tm rest ih =>
    intro j m hwf hnd
    obtain ⟨nm, ty, hn, ht, hty⟩ := hwf tm (List.mem_cons_self ..)
    have hwf' : ∀ tm' ∈ rest, ∃ nm ty, tm'.name = some nm ∧ tm'.typ = some ty ∧
        (ty = "int" ∨ ty = "string") := fun tm' h => hwf tm' (List.mem_cons_of_mem _ h)
    have hnd' : (rest.map RawMatch.name).Nodup := by
      simpa using (List.nodup_cons.mp (by simpa using hnd)).2
    have hnotin : ∀ tm' ∈ rest, tm'.name ≠ some nm := by
      intro tm' h hcon
      have h1 : tm.name ∈ rest.map RawMatch.name := by
        rw [hn, ← hcon]
        exact List.mem_map_of_mem _ h
      exact (List.nodup_cons.mp (by simpa using hnd)).1 h1
    set v : Val := if ty = "int" then Val.int (goAtoi (groups.getD (j + 1) "")).1
                   else Val.str (groups.getD (j + 1) "") with hv
    have hstep : storeMatches (tm :: rest) groups j m =
        storeMatches rest groups (j + 1) (m.set nm v) := by
      rcases hty with h | h <;> subst h <;> simp [storeMatches, hn, ht, hv]
    obtain ⟨m', hm', hidx, huntouched⟩ := ih (j + 1) (m.set nm v) hwf' hnd'
    refine ⟨m', by rw [hstep]; exact hm', ?_, ?_⟩
    · intro i nm' ty' hi hget
      cases i with
      | zero =>
        simp only [List.getD_cons_zero] at hget
        have hnm : nm' = nm := by
          rw [hget] at hn; simpa using hn
        have hty2 : ty' = ty := by
          rw [hget] at ht; simpa using ht
        rw [hnm, hty2]
        rw [huntouched nm (by simpa using hnotin)]
        rw [FieldMap.get_set, if_pos rfl, hv]
      | succ i =>
        have := hidx i nm' ty' (by simpa using hi) (by simpa using hget)
        have harith : j + 1 + i + 1 = j + (i + 1) + 1 := by omega
        rw [harith] at this
        exact this
    · intro k hk
      have h1 : tm.name ≠ some k := hk tm (List.mem_cons_self ..)
      have hkn : k ≠ nm := by
        intro hcon
        subst hcon
        exact h1 hn
      rw [huntouched k (fun tm' h => hk tm' (List.mem_cons_of_mem _ h))]
      rw [FieldMap.get_set, if_neg hkn]

/-- C4.  Regex Storage Node error policy: with the `matches` member
present and a compiling pattern, a non-matching pattern fails with
`no matches found`; a match whose capture-group count (`len(matches)-1`)
differs from `len(transformMatches)` fails with `unequal match count`,
for every group count including 0, 1 and N>1; when the counts agree and
the `matches` entries are well-formed with distinct names, every capture
group is written under its corresponding name with its declared
coercion, and no error is returned. -/
theorem c4_regex_matches (env : Env) (v : String) (t : RawNode) (m : FieldMap)
    (reg : String) (tms : List RawMatch)
    (hr : t.regex = some reg) (hm : t.matchesList = some tms)
    (hc : env.regexCompiles reg = true) :
    (env.regexMatch reg v = none →
      crawlStore env v t m = .norm m (some "no matches found")) ∧
    (∀ groups, env.regexMatch reg v = some groups →
      (groups.length : Int) - 1 ≠ (tms.length : Int) →
      crawlStore env v t m = .norm m (some "unequal match count")) ∧
    (∀ groups, env.regexMatch reg v = some groups →
      (groups.length : Int) - 1 = (tms.length : Int) →
      (∀ tm ∈ tms, ∃ nm ty, tm.name = some nm ∧ tm.typ = some ty ∧
        (ty = "int" ∨ ty = "string")) →
      (tms.map RawMatch.name).Nodup →
      ∃ m', crawlStore env v t m = .norm m' none ∧
        ∀ i nm ty, i < tms.length → tms.getD i ⟨none, none⟩ = ⟨some nm, some ty⟩ →
          m'.get nm = some (if ty = "int" then Val.int (goAtoi (groups.getD (i + 1) "")).1
                            else Val.str (groups.getD (i + 1) ""))) := by
  refine ⟨?_, ?_, ?_⟩
  · intro hmm
    simp [crawlStore, hr, hm, hc, hmm]
  · intro groups hg hne
    simp [crawlStore, hr, hm, hc, hg, hne]
  · intro groups hg heq hwf hnd
    obtain ⟨m', hm', hidx, _⟩ := storeMatches_spec groups tms 0 m hwf hnd
    refine ⟨m', ?_, ?_⟩
    · simp [crawlStore, hr, hm, hc, hg, heq, hm']
    · intro i nm ty hi hget
      have := hidx i nm ty hi hget
      have harith : 0 + i + 1 = i + 1 := by omega
      rw [harith] at this
      exact this

/-- Witness for C4: one capture group, coerced to int. -/
theorem c4_regex_matches_witness :
    ∃ m', crawlStore envRx "v" tRx [] = .norm m' none ∧
      m'.get "id" = some (Val.int 42) := by
  have h := (c4_regex_matches envRx "v" tRx [] "p" [⟨some "id", some "int"⟩]
    rfl rfl rfl).2.2 ["v", "42"] (by decide) (by decide)
    (by intro tm htm; refine ⟨"id", "int", ?_, ?_, Or.inl rfl⟩ <;> simp_all) (by decide)
  obtain ⟨m', hm', hidx⟩ := h
  refine ⟨m', hm', ?_⟩
  have := hidx 0 "id" "int" (by decide) (by decide)
  simpa using this

/-! ## Node recognition and find/search zero-match behaviour (C2, C6) -/

/-- C2 (code evaluation at the failing input).  goquery's `Find` returns a
non-nil empty selection when nothing matches, so the source's
`if s == nil` guard never fires: a `find` node whose selector matches no
element does not fail with `no element found` — its `do`-children run
against the empty selection (here a `text` child stores the empty string)
and evaluation succeeds.  A `search` node with zero matches also succeeds
(second conjunct), as the claim correctly states. -/
theorem c2_find_no_match_no_error :
    env0.find [0] "a" = [] ∧
    crawlSelect env0 [0] tFindA (some [∅]) = .norm [[("x", Val.str "")]] none ∧
    crawlSelect env0 [0] tSearchA (some [∅]) = .norm [∅] none := by
  refine ⟨rfl, ?_, ?_⟩
  · simp [crawlSelect, tFindA, tTextX, tCopyX, env0, findLoop, storeLoop, crawlStore,
      FieldMap.set, RawNode.search, RawNode.find, RawNode.attr, RawNode.hasText, RawNode.doList, RawNode.regex, RawNode.matchesList, RawNode.hasCopy, RawNode.name, RawNode.typ]
  · simp [crawlSelect, tSearchA, env0, searchEach]

/-- Counterexample to C6 as stated: a node carrying both `search` and
`find` members does not yield the `do not know how to transform`
configuration error — evaluation silently picks the `search` variant and
succeeds. -/
theorem c6_counterexample :
    tBoth.search = some "s" ∧ tBoth.find = some "f" ∧
    crawlSelect env0 [0] tBoth none = .norm [∅] none := by
  refine ⟨rfl, rfl, ?_⟩
  simp [crawlSelect, tBoth, env0, searchEach]

/-- C6 (amended).  Node recognition tries the distinguishing members in
the fixed order `search`, `find`, `attr`, `text`: a node with none of them
is the configuration error `do not know how to transform`, while a node
with several of them silently evaluates as the first present member in
that order, ignoring the rest. -/
theorem c6_node_recognition :
    (∀ env el t iv, t.search = none → t.find = none → t.attr = none → t.hasText = false →
      crawlSelect env el t iv = .norm (iv.getD [∅]) (some "do not know how to transform")) ∧
    (∀ env el t iv sel, t.search = some sel →
      crawlSelect env el t iv = crawlSelect env el (onlySearch t) iv) ∧
    (∀ env el t iv sel, t.search = none → t.find = some sel →
      crawlSelect env el t iv = crawlSelect env el (onlyFind t) iv) ∧
    (∀ env el t iv sel, t.search = none → t.find = none → t.attr = some sel →
      crawlSelect env el t iv = crawlSelect env el (onlyAttr t) iv) ∧
    (∀ env el t iv, t.search = none → t.find = none → t.attr = none → t.hasText = true →
      crawlSelect env el t iv = crawlSelect env el (onlyText t) iv) := by
  refine ⟨?_, ?_, ?_, ?_, ?_⟩
  · rintro env el ⟨sS, sF, sA, bT, oDo, r, ml, c, nm, ty⟩ iv h1 h2 h3 h4
    simp only [RawNode.search] at h1
    simp only [RawNode.find] at h2
    simp only [RawNode.attr] at h3
    simp only [RawNode.hasText] at h4
    subst h1; subst h2; subst h3; subst h4
    cases oDo <;> simp [crawlSelect]
  · rintro env el ⟨sS, sF, sA, bT, oDo, r, ml, c, nm, ty⟩ iv sel h1
    simp only [RawNode.search] at h1
    subst h1
    cases oDo <;> simp [crawlSelect, onlySearch, RawNode.search, RawNode.doList]
  · rintro env el ⟨sS, sF, sA, bT, oDo, r, ml, c, nm, ty⟩ iv sel h1 h2
    simp only [RawNode.search] at h1
    simp only [RawNode.find] at h2
    subst h1; subst h2
    cases oDo <;>
      simp [crawlSelect, onlyFind, RawNode.search, RawNode.find, RawNode.doList]
  · rintro env el ⟨sS, sF, sA, bT, oDo, r, ml, c, nm, ty⟩ iv sel h1 h2 h3
    simp only [RawNode.search] at h1
    simp only [RawNode.find] at h2
    simp only [RawNode.attr] at h3
    subst h1; subst h2; subst h3
    cases oDo <;>
      simp [crawlSelect, onlyAttr, RawNode.search, RawNode.find, RawNode.attr, RawNode.doList]
  · rintro env el ⟨sS, sF, sA, bT, oDo, r, ml, c, nm, ty⟩ iv h1 h2 h3 h4
    simp only [RawNode.search] at h1
    simp only [RawNode.find] at h2
    simp only [RawNode.attr] at h3
    simp only [RawNode.hasText] at h4
    subst h1; subst h2; subst h3; subst h4
    cases oDo <;>
      simp [crawlSelect, onlyText, RawNode.search, RawNode.find, RawNode.attr,
        RawNode.hasText, RawNode.doList]

/-- Witness for the amended C6: `tBoth` evaluates exactly as its `search`
projection. -/
theorem c6_node_recognition_witness :
    crawlSelect env0 [0] tBoth none = crawlSelect env0 [0] (onlySearch tBoth) none :=
  c6_node_recognition.2.1 env0 [0] tBoth none "s" rfl

/-! ## Branching invariant (C1) and base-call safety (C10) -/

/-- C1 (amended).  For a base `search` node matching the non-empty sibling
list `env.find el sel`, where each sibling's `do`-list run in isolation
succeeds and writes at least one key, the base evaluation returns exactly
one field-mapping per sibling — each being that sibling's isolated-run
mapping, i.e. exactly the keys written while visiting its own subtree
(first two conjuncts).  After any element `i < K-1`, a fresh empty mapping
is appended exactly when the last one is non-empty, otherwise it is reused
(third conjunct).  For K = 0 siblings the evaluation instead returns the
single seeded empty mapping (see the counterexample). -/
theorem c1_branching (env : Env) (el : Sel) (t : RawNode) (sel : String) (ds : List RawNode)
    (hS : t.search = some sel) (hD : t.doList = some ds)
    (hne : env.find el sel ≠ [])
    (hok : ∀ s ∈ env.find el sel,
      isoRun env ds s = some (isoMap env ds s, none, false) ∧ isoMap env ds s ≠ ∅) :
    crawlSelect env el t none = .norm ((env.find el sel).map (isoMap env ds)) none ∧
    ((env.find el sel).map (isoMap env ds)).length = (env.find el sel).length ∧
    (∀ (i : Nat) (acc : List FieldMap), i < (env.find el sel).length - 1 →
      appendStep true (env.find el sel).length i false acc =
        (if (acc.getLastD ∅).size ≠ 0 then acc ++ [∅] else acc)) := by
  obtain ⟨sS, sF, sA, bT, oDo, r, ml, c, nm, ty⟩ := t
  simp only [RawNode.search] at hS
  simp only [RawNode.doList] at hD
  subst hS; subst hD
  refine ⟨?_, by simp, ?_⟩
  · simp only [crawlSelect, Option.isNone_none, Option.getD_none]
    have h := searchEach_base env ds (env.find el sel).length (env.find el sel) 0 [] hok hne
      (by simp)
    simpa using h
  · intro i acc hi
    have hne2 : ¬(i = (env.find el sel).length - 1) := by omega
    simp [appendStep, hne2]

/-- Counterexample to C1 as stated: a base `search` matching K = 0
elements (vacuously, every sibling's `do` writes a key) produces one
(empty) field-mapping, not K = 0 of them. -/
theorem c1_counterexample :
    env0.find [0] "s" = [] ∧
    crawlSelect env0 [0] tSearchS none = .norm [∅] none ∧
    ([∅] : List FieldMap).length = 1 := by
  refine ⟨rfl, ?_, rfl⟩
  simp [crawlSelect, tSearchS, env0, searchEach]

/-- Witness for the amended C1: two siblings, each writing one key. -/
theorem c1_branching_witness :
    crawlSelect envTwo [0] tSearchDiv none =
      .norm [[("x", Val.str "a")], [("x", Val.str "b")]] none := by
  have hfind : envTwo.find [0] "div" = [1, 2] := by simp [envTwo]
  have hok : ∀ s ∈ envTwo.find [0] "div",
      isoRun envTwo [tTextX] s = some (isoMap envTwo [tTextX] s, none, false) ∧
      isoMap envTwo [tTextX] s ≠ ∅ := by
    intro s hs
    rw [hfind] at hs
    simp only [List.mem_cons, List.mem_singleton, List.not_mem_nil, or_false] at hs
    rcases hs with rfl | rfl <;>
      constructor <;>
        simp [isoRun, isoMap, eachLast, selLast, storeLast, crawlStore, tTextX, tCopyX,
          envTwo, FieldMap.set, RawNode.search, RawNode.find, RawNode.attr, RawNode.hasText,
          RawNode.doList, RawNode.regex, RawNode.matchesList, RawNode.hasCopy, RawNode.name,
          RawNode.typ]
  have h := (c1_branching envTwo [0] tSearchDiv "div" [tTextX] rfl rfl
    (by rw [hfind]; simp) hok).1
  rw [h, hfind]
  simp [isoMap, isoRun, eachLast, selLast, storeLast, crawlStore, tTextX, tCopyX, envTwo,
    FieldMap.set, RawNode.search, RawNode.find, RawNode.attr, RawNode.hasText, RawNode.doList,
    RawNode.regex, RawNode.matchesList, RawNode.hasCopy, RawNode.name, RawNode.typ]

/-- C10.  A base `crawlSelect` call (nil incoming mapping list) that
returns without error returns at least one field-mapping, so
`processFeed`'s access to `itemValues[len(itemValues)-1]` is in bounds. -/
theorem c10_base_nonempty (env : Env) (el : Sel) (t : RawNode) (l : List FieldMap)
    (h : crawlSelect env el t none = .norm l none) : 0 < l.length :=
  List.length_pos.mpr (crawlSelect_base_ne_nil env el t l none h)

/-- Witness for C10 at a concrete base `text` node. -/
theorem c10_base_nonempty_witness :
    crawlSelect env0 [0] tTextX none = .norm [[("x", Val.str "")]] none ∧
    0 < ([[("x", Val.str "")]] : List FieldMap).length := by
  have he : crawlSelect env0 [0] tTextX none = .norm [[("x", Val.str "")]] none := by
    simp [crawlSelect, tTextX, tCopyX, env0, storeLoop, crawlStore, FieldMap.set,
      RawNode.search, RawNode.find, RawNode.attr, RawNode.hasText, RawNode.doList,
      RawNode.regex, RawNode.matchesList, RawNode.hasCopy, RawNode.name, RawNode.typ]
  exact ⟨he, c10_base_nonempty env0 [0] tTextX _ he⟩
